/-
  Verification of the in-memory Reddit-style engine.

  Shallow embedding of the Go engine (`RedditEngine` and its methods).
  Go maps are modelled as association lists (Go map keys are unique, so the
  list-level `find?` lookup agrees with map lookup); Go `map[string]bool`
  sets are modelled as lists with set-style insert/delete; pointer sharing
  between the global post map and each subreddit's post slice is modelled by
  storing post IDs in the subreddit and resolving them through the global
  map; Go `int` counters are modelled as unbounded `Int`; `time.Time` values
  are modelled as `Nat` (only `Before`, i.e. `<`, is ever used on them);
  values produced by the environment (`time.Now()`-derived IDs and
  timestamps) are passed as explicit arguments; fallible methods return
  `Except String` carrying the Go error message.
-/
import Mathlib

/-- Go struct `Comment`: a recursive tree node (`Children []*Comment`).
The `mu sync.RWMutex` field carries no data and is omitted. -/
inductive Comment : Type where
  | mk (ID Content Author ParentID : String) (CreatedAt : Nat) (Votes : Int)
      (Children : List Comment) : Comment


def Comment.ID : Comment → String
  | .mk i _ _ _ _ _ _ => i

def Comment.Content : Comment → String
  | .mk _ c _ _ _ _ _ => c

def Comment.Author : Comment → String
  | .mk _ _ a _ _ _ _ => a

def Comment.ParentID : Comment → String
  | .mk _ _ _ p _ _ _ => p

def Comment.CreatedAt : Comment → Nat
  | .mk _ _ _ _ t _ _ => t

def Comment.Votes : Comment → Int
  | .mk _ _ _ _ _ v _ => v

def Comment.Children : Comment → List Comment
  | .mk _ _ _ _ _ _ cs => cs

/-- Go struct `DirectMessage`: `Replies []*DirectMessage` makes it a tree. -/
inductive DirectMessage : Type where
  | mk (ID From To Content : String) (CreatedAt : Nat)
      (Replies : List DirectMessage) : DirectMessage


def DirectMessage.ID : DirectMessage → String
  | .mk i _ _ _ _ _ => i

def DirectMessage.From : DirectMessage → String
  | .mk _ f _ _ _ _ => f

def DirectMessage.To : DirectMessage → String
  | .mk _ _ t _ _ _ => t

def DirectMessage.Content : DirectMessage → String
  | .mk _ _ _ c _ _ => c

def DirectMessage.CreatedAt : DirectMessage → Nat
  | .mk _ _ _ _ t _ => t

def DirectMessage.Replies : DirectMessage → List DirectMessage
  | .mk _ _ _ _ _ rs => rs

/-- Go struct `User`. `Subreddits map[string]bool` is a set of names. -/
structure User where
  Username : String
  Password : String
  Karma : Int
  CreatedAt : Nat
  Subreddits : List String


/-- Go struct `Post`. `Comments` is the top-level comment forest. -/
structure Post where
  ID : String
  Title : String
  Content : String
  Author : String
  Subreddit : String
  CreatedAt : Nat
  Votes : Int
  Comments : List Comment


/-- Go struct `Subreddit`. `Posts []*Post` holds pointers into the engine's
global post map; we model the pointers by post IDs. -/
structure Subreddit where
  Name : String
  Description : String
  Creator : String
  CreatedAt : Nat
  Posts : List String
  Members : List String


/-- Go struct `RedditEngine`: the four top-level maps, as association lists
keyed by `Username`, `Name`, `ID` and recipient username respectively. -/
structure RedditEngine where
  users : List User
  subreddits : List Subreddit
  posts : List Post
  directMessages : List (String × List DirectMessage)


/-- Go `NewRedditEngine`: all four maps empty. -/
def NewRedditEngine : RedditEngine :=
  ⟨[], [], [], []⟩

/-- Lookup `e.users[username]`. -/
def findUser (e : RedditEngine) (username : String) : Option User :=
  e.users.find? (fun u => u.Username = username)

/-- Lookup `e.subreddits[name]`. -/
def findSubreddit (e : RedditEngine) (name : String) : Option Subreddit :=
  e.subreddits.find? (fun s => s.Name = name)

/-- Lookup `e.posts[id]`. -/
def findPost (e : RedditEngine) (id : String) : Option Post :=
  e.posts.find? (fun p => p.ID = id)

/-- Lookup `e.directMessages[username]`; a missing key reads as the nil
slice, i.e. the empty list, exactly as in Go. -/
def inboxOf (e : RedditEngine) (username : String) : List DirectMessage :=
  ((e.directMessages.find? (fun kv => kv.1 = username)).map Prod.snd).getD []

/-- Go set insertion `m[k] = true` on a `map[string]bool`. -/
def setInsert (l : List String) (x : String) : List String :=
  if x ∈ l then l else l ++ [x]

/-- Go `delete(m, k)` on a `map[string]bool`. -/
def setDelete (l : List String) (x : String) : List String :=
  l.filter (fun y => y ≠ x)

/-- In-place mutation of the user record with the given username
(Go mutates through the shared pointer in `e.users`). -/
def updateUser (us : List User) (username : String) (f : User → User) : List User :=
  us.map (fun u => if u.Username = username then f u else u)

/-- In-place mutation of the subreddit record with the given name. -/
def updateSubreddit (ss : List Subreddit) (name : String) (f : Subreddit → Subreddit) :
    List Subreddit :=
  ss.map (fun s => if s.Name = name then f s else s)

/-- In-place mutation of the post record with the given id. -/
def updatePost (ps : List Post) (id : String) (f : Post → Post) : List Post :=
  ps.map (fun p => if p.ID = id then f p else p)

/-- Go `RegisterUser`: fails if the username is taken, otherwise creates a
user with zero karma (Go zero value) and an empty joined set. -/
def RegisterUser (e : RedditEngine) (username password : String) (now : Nat) :
    Except String RedditEngine :=
  if (findUser e username).isSome then
    .error "user already exists"
  else
    .ok { e with users := e.users ++ [⟨username, password, 0, now, []⟩] }

/-- Go `CreateSubreddit`. -/
def CreateSubreddit (e : RedditEngine) (name description creator : String) (now : Nat) :
    Except String RedditEngine :=
  if (findSubreddit e name).isSome then
    .error "subreddit already exists"
  else
    .ok { e with subreddits := e.subreddits ++ [⟨name, description, creator, now, [], []⟩] }

/-- Go `JoinSubreddit`: both entities must exist; then set-insert into the
user's joined set and the subreddit's member set. -/
def JoinSubreddit (e : RedditEngine) (username subredditName : String) :
    Except String RedditEngine :=
  match findUser e username with
  | none => .error "user not found"
  | some _ =>
    match findSubreddit e subredditName with
    | none => .error "subreddit not found"
    | some _ =>
      .ok { e with
        users := updateUser e.users username
          (fun u => { u with Subreddits := setInsert u.Subreddits subredditName }),
        subreddits := updateSubreddit e.subreddits subredditName
          (fun s => { s with Members := setInsert s.Members username }) }

/-- Go `LeaveSubreddit`: both entities must exist; then `delete` from both
sets (deleting an absent key is a no-op in Go). -/
def LeaveSubreddit (e : RedditEngine) (username subredditName : String) :
    Except String RedditEngine :=
  match findUser e username with
  | none => .error "user not found"
  | some _ =>
    match findSubreddit e subredditName with
    | none => .error "subreddit not found"
    | some _ =>
      .ok { e with
        users := updateUser e.users username
          (fun u => { u with Subreddits := setDelete u.Subreddits subredditName }),
        subreddits := updateSubreddit e.subreddits subredditName
          (fun s => { s with Members := setDelete s.Members username }) }

/-- Go `CreatePost`: the new post is published in the global map and its
pointer appended to the owning subreddit's slice (modelled by its ID). -/
def CreatePost (e : RedditEngine) (title content author subredditName : String)
    (id : String) (now : Nat) : Except String (Post × RedditEngine) :=
  match findSubreddit e subredditName with
  | none => .error "subreddit not found"
  | some _ =>
    let post : Post := ⟨id, title, content, author, subredditName, now, 0, []⟩
    .ok (post, { e with
      posts := e.posts ++ [post],
      subreddits := updateSubreddit e.subreddits subredditName
        (fun s => { s with Posts := s.Posts ++ [id] }) })

/-- Go `findComment`: depth-first search of the forest — each node's own id
first, then its children, then the remaining siblings. -/
def findComment : List Comment → String → Option Comment
  | [], _ => none
  | Comment.mk i c a p t v cs :: rest, commentID =>
    if i = commentID then some (Comment.mk i c a p t v cs)
    else
      match findComment cs commentID with
      | some found => some found
      | none => findComment rest commentID

/-- The in-place `parent.Children = append(parent.Children, comment)` of Go
`AddComment`, as a functional tree update: append `c` to the children of the
first depth-first node whose id is `pid` (the node `findComment` returns);
`none` when no node matches. -/
def insertUnder : List Comment → String → Comment → Option (List Comment)
  | [], _, _ => none
  | Comment.mk i cn a p t v cs :: rest, pid, c =>
    if i = pid then some (Comment.mk i cn a p t v (cs ++ [c]) :: rest)
    else
      match insertUnder cs pid c with
      | some cs2 => some (Comment.mk i cn a p t v cs2 :: rest)
      | none =>
        match insertUnder rest pid c with
        | some rest2 => some (Comment.mk i cn a p t v cs :: rest2)
        | none => none

/-- Go `AddComment`. -/
def AddComment (e : RedditEngine) (content author postID parentCommentID : String)
    (id : String) (now : Nat) : Except String (Comment × RedditEngine) :=
  match findPost e postID with
  | none => .error "post not found"
  | some post =>
    let comment : Comment := Comment.mk id content author parentCommentID now 0 []
    if parentCommentID = "" then
      .ok (comment, { e with
        posts := updatePost e.posts postID
          (fun p => { p with Comments := p.Comments ++ [comment] }) })
    else
      match insertUnder post.Comments parentCommentID comment with
      | none => .error "parent comment not found"
      | some cs2 =>
        .ok (comment, { e with
          posts := updatePost e.posts postID (fun p => { p with Comments := cs2 }) })

/-- Go `updateKarma`: silently a no-op when the username is unregistered. -/
def updateKarma (e : RedditEngine) (username : String) (value : Int) : RedditEngine :=
  match findUser e username with
  | none => e
  | some _ =>
    { e with users := updateUser e.users username (fun u => { u with Karma := u.Karma + value }) }

/-- Go `VotePost`: upvote adds +2 to the post counter and +1 karma to the
author; downvote subtracts 1 from both. -/
def VotePost (e : RedditEngine) (postID : String) (upvote : Bool) :
    Except String RedditEngine :=
  match findPost e postID with
  | none => .error "post not found"
  | some post =>
    if upvote then
      .ok (updateKarma
        { e with posts := updatePost e.posts postID (fun p => { p with Votes := p.Votes + 2 }) }
        post.Author 1)
    else
      .ok (updateKarma
        { e with posts := updatePost e.posts postID (fun p => { p with Votes := p.Votes - 1 }) }
        post.Author (-1))

/-- Go `GetComments`: the top-level comment sequence of the post. -/
def GetComments (e : RedditEngine) (postID : String) : Except String (List Comment) :=
  match findPost e postID with
  | none => .error "post not found"
  | some post => .ok post.Comments

/-- Resolve a subreddit's post-pointer slice through the global post map
(in Go the slice holds the pointers themselves). -/
def resolvePosts (e : RedditEngine) (ids : List String) : List Post :=
  ids.filterMap (fun pid => findPost e pid)

/-- One inner pass of Go `sortPosts`: adjacent posts are swapped when the
left one was created strictly before the right one (`CreatedAt.Before`),
bubbling the oldest post to the end. -/
def bubblePass : List Post → List Post
  | [] => []
  | [p] => [p]
  | p :: q :: rest =>
    if p.CreatedAt < q.CreatedAt then q :: bubblePass (p :: rest)
    else p :: bubblePass (q :: rest)

/-- Iterate `bubblePass`. -/
def bubblePasses : Nat → List Post → List Post
  | 0, l => l
  | n + 1, l => bubblePasses n (bubblePass l)

/-- Go `sortPosts`: bubble sort with `n-1` outer iterations, newest first.
(The Go inner loop stops `i` short of the end; since the final `i` elements
are already in descending order after `i` passes, the comparison there never
swaps, so a full pass computes the same list.) -/
def sortPosts (posts : List Post) : List Post :=
  bubblePasses (posts.length - 1) posts

/-- The feed-collection loop of Go `GetUserFeed`: for each joined name the
subreddit is looked up WITHOUT an existence check and its posts appended;
`none` models the nil-pointer dereference that a dangling name would hit. -/
def collectFeed (e : RedditEngine) : List String → Option (List Post)
  | [] => some []
  | n :: rest =>
    match findSubreddit e n with
    | none => none
    | some sub =>
      match collectFeed e rest with
      | none => none
      | some fs => some (resolvePosts e sub.Posts ++ fs)

/-- Go `GetUserFeed`: `.ok none` marks the run that would panic on a
dangling joined-subreddit name. -/
def GetUserFeed (e : RedditEngine) (username : String) :
    Except String (Option (List Post)) :=
  match findUser e username with
  | none => .error "user not found"
  | some user =>
    match collectFeed e user.Subreddits with
    | none => .ok none
    | some feed => .ok (some (sortPosts feed))

/-- Insert into the per-recipient inbox map (Go allocates the slice on first
use; a missing key and an empty slice behave identically). -/
def appendInbox (dms : List (String × List DirectMessage)) (toUser : String)
    (dm : DirectMessage) : List (String × List DirectMessage) :=
  if (dms.find? (fun kv => kv.1 = toUser)).isSome then
    dms.map (fun kv => if kv.1 = toUser then (kv.1, kv.2 ++ [dm]) else kv)
  else
    dms ++ [(toUser, [dm])]

/-- Go `SendDirectMessage`. -/
def SendDirectMessage (e : RedditEngine) (fromUser toUser content : String)
    (id : String) (now : Nat) : Except String (DirectMessage × RedditEngine) :=
  if (findUser e fromUser).isNone then .error "sender not found"
  else if (findUser e toUser).isNone then .error "recipient not found"
  else
    let dm : DirectMessage := DirectMessage.mk id fromUser toUser content now []
    .ok (dm, { e with directMessages := appendInbox e.directMessages toUser dm })

/-- The scan of Go `ReplyToDirectMessage`: every recipient's top-level inbox
is searched for a message with the given id (replies are never scanned).
Message ids are globally unique, so which match is taken is immaterial; we
take the first. -/
def findDM : List (String × List DirectMessage) → String → Option DirectMessage
  | [], _ => none
  | (_, msgs) :: rest, mid =>
    match msgs.find? (fun dm => dm.ID = mid) with
    | some dm => some dm
    | none => findDM rest mid

/-- The in-place `originalDM.Replies = append(...)` of Go
`ReplyToDirectMessage`: append `reply` to the reply sequence of every
top-level message with the matched id (unique in practice), in place. -/
def attachReply (dms : List (String × List DirectMessage)) (mid : String)
    (reply : DirectMessage) : List (String × List DirectMessage) :=
  dms.map (fun kv => (kv.1, kv.2.map (fun dm =>
    if dm.ID = mid then
      DirectMessage.mk dm.ID dm.From dm.To dm.Content dm.CreatedAt (dm.Replies ++ [reply])
    else dm)))

/-- Go `ReplyToDirectMessage`: the reply's recipient is the original
sender; the reply lands only in the original's reply sequence, never in a
top-level inbox. -/
def ReplyToDirectMessage (e : RedditEngine) (originalMsgID fromUser content : String)
    (id : String) (now : Nat) : Except String (DirectMessage × RedditEngine) :=
  match findDM e.directMessages originalMsgID with
  | none => .error "original message not found"
  | some originalDM =>
    let reply : DirectMessage :=
      DirectMessage.mk id fromUser originalDM.From content now []
    .ok (reply, { e with directMessages := attachReply e.directMessages originalMsgID reply })

/-- Go `GetDirectMessages`: requires the user to exist; a user with no inbox
entry reads the nil slice, i.e. the empty list. -/
def GetDirectMessages (e : RedditEngine) (username : String) :
    Except String (List DirectMessage) :=
  if (findUser e username).isNone then .error "user not found"
  else .ok (inboxOf e username)

/-- Go helper `countComments` (engine_actor.go): the length of the forest
plus, recursively, the counts of every node's children. -/
def countComments : List Comment → Nat
  | [] => 0
  | Comment.mk _ _ _ _ _ _ cs :: rest => 1 + countComments cs + countComments rest

/-- All nodes of a comment forest, every descendant included (used to state
what `countComments` counts). -/
def commentNodes : List Comment → List Comment
  | [] => []
  | Comment.mk i c a p t v cs :: rest =>
    Comment.mk i c a p t v cs :: (commentNodes cs ++ commentNodes rest)

/-- The per-post vote-splitting accumulator step shared by the actor's
`GetStatsMessage` branch and the HTTP `handleGetStats`: a strictly positive
counter is added whole to the upvote total, otherwise its negation is added
to the downvote total. Returns (totalUpvotes, totalDownvotes). -/
def voteSplit : List Post → Int × Int
  | [] => (0, 0)
  | p :: rest =>
    let acc := voteSplit rest
    if p.Votes > 0 then (acc.1 + p.Votes, acc.2) else (acc.1, acc.2 - p.Votes)

/-- Total comment count over every post, as both stats callers compute. -/
def statsTotalComments (e : RedditEngine) : Nat :=
  (e.posts.map (fun p => countComments p.Comments)).sum

/-- The (username, karma) pairs both stats callers collect before sorting. -/
def userKarmas (e : RedditEngine) : List (String × Int) :=
  e.users.map (fun u => (u.Username, u.Karma))

/-- Karma ranking, descending. Both callers sort with Go's unstable
`sort.Slice` under `karma(i) > karma(j)`; any tie order is admissible, and
insertion sort realises one such order. -/
def rankByKarma (e : RedditEngine) : List (String × Int) :=
  (userKarmas e).insertionSort (fun a b => b.2 ≤ a.2)

/-- The actor caller's truncation: `if len > 10 { topUsers = topUsers[:10] }`. -/
def actorTopUsers (e : RedditEngine) : List (String × Int) :=
  if (rankByKarma e).length > 10 then (rankByKarma e).take 10 else rankByKarma e

/-- The HTTP caller's truncation: `for i := 0; i < len && i < 5; i++`. -/
def httpTopUsers (e : RedditEngine) : List (String × Int) :=
  (rankByKarma e).take 5

/-- Total direct messages: the sum of all top-level inbox lengths. -/
def statsTotalDMs (e : RedditEngine) : Nat :=
  (e.directMessages.map (fun kv => kv.2.length)).sum

/-- All top-level messages across every inbox. -/
def allInboxMessages (e : RedditEngine) : List DirectMessage :=
  e.directMessages.flatMap (fun kv => kv.2)

/-- One step of the engine: some mutating operation ran and succeeded.
Read-only operations do not change the state and are omitted. -/
inductive Step : RedditEngine → RedditEngine → Prop where
  | register (e : RedditEngine) (username password : String) (now : Nat) (e2 : RedditEngine)
      (h : RegisterUser e username password now = .ok e2) : Step e e2
  | createSub (e : RedditEngine) (name description creator : String) (now : Nat)
      (e2 : RedditEngine) (h : CreateSubreddit e name description creator now = .ok e2) :
      Step e e2
  | join (e : RedditEngine) (username subredditName : String) (e2 : RedditEngine)
      (h : JoinSubreddit e username subredditName = .ok e2) : Step e e2
  | leave (e : RedditEngine) (username subredditName : String) (e2 : RedditEngine)
      (h : LeaveSubreddit e username subredditName = .ok e2) : Step e e2
  | createPost (e : RedditEngine) (title content author subredditName id : String) (now : Nat)
      (post : Post) (e2 : RedditEngine)
      (h : CreatePost e title content author subredditName id now = .ok (post, e2)) : Step e e2
  | addComment (e : RedditEngine) (content author postID parentCommentID id : String)
      (now : Nat) (comment : Comment) (e2 : RedditEngine)
      (h : AddComment e content author postID parentCommentID id now = .ok (comment, e2)) :
      Step e e2
  | vote (e : RedditEngine) (postID : String) (upvote : Bool) (e2 : RedditEngine)
      (h : VotePost e postID upvote = .ok e2) : Step e e2
  | sendDM (e : RedditEngine) (fromUser toUser content id : String) (now : Nat)
      (dm : DirectMessage) (e2 : RedditEngine)
      (h : SendDirectMessage e fromUser toUser content id now = .ok (dm, e2)) : Step e e2
  | replyDM (e : RedditEngine) (originalMsgID fromUser content id : String) (now : Nat)
      (dm : DirectMessage) (e2 : RedditEngine)
      (h : ReplyToDirectMessage e originalMsgID fromUser content id now = .ok (dm, e2)) :
      Step e e2

/-- The joined-set invariant: every subreddit name in any user's joined set
names a subreddit present in the store. -/
def JoinedNamesValid (e : RedditEngine) : Prop :=
  ∀ u ∈ e.users, ∀ n ∈ u.Subreddits, ∃ s ∈ e.subreddits, s.Name = n

/-- A sequence of `VotePost` calls on one post (`true` = upvote). -/
def applyVotes (e : RedditEngine) (postID : String) : List Bool → Except String RedditEngine
  | [] => .ok e
  | b :: bs =>
    match VotePost e postID b with
    | .error msg => .error msg
    | .ok e2 => applyVotes e2 postID bs

/-- The mutation Go `AddComment` performs on the node `findComment`
returned: append a child to its child sequence. -/
def Comment.addChild : Comment → Comment → Comment
  | .mk i cn a p t v cs, c => .mk i cn a p t v (cs ++ [c])

/-- Store well-formedness the engine maintains: subreddit names are unique
keys, a subreddit's post slice holds no duplicate pointers, and two
different subreddits never share a post pointer (`CreatePost` appends each
new post to exactly one subreddit and posts are never moved or deleted). -/
def StoreWf (e : RedditEngine) : Prop :=
  (e.subreddits.map Subreddit.Name).Nodup ∧
  (∀ s ∈ e.subreddits, s.Posts.Nodup) ∧
  (∀ s ∈ e.subreddits, ∀ s2 ∈ e.subreddits, s.Name ≠ s2.Name →
    ∀ pid ∈ s.Posts, pid ∉ s2.Posts)


/-- The relation both stats callers use with Go's `sort.Slice`
(`karma(i) > karma(j)`) is realised here as its reflexive closure for a
deterministic model; instances let Mathlib's sort lemmas apply. -/
instance : IsTotal (String × Int) (fun a b => b.2 ≤ a.2) :=
  ⟨fun a b => le_total b.2 a.2⟩

instance : IsTrans (String × Int) (fun a b => b.2 ≤ a.2) :=
  ⟨fun _ _ _ h1 h2 => le_trans h2 h1⟩

/-
Concrete store states, built to exercise the theorems on explicit inputs.
-/
def wAlice : User := ⟨"alice", "pw", 0, 0, ["science"]⟩

def wBob : User := ⟨"bob", "pw2", 3, 1, []⟩

def wPost1 : Post := ⟨"post1", "H", "C", "alice", "science", 5, 0, []⟩

def wSci : Subreddit := ⟨"science", "d", "alice", 2, ["post1"], ["alice"]⟩

def wEng : RedditEngine := ⟨[wAlice, wBob], [wSci], [wPost1], []⟩

def wEng2 : RedditEngine := ⟨[wAlice, wBob, ⟨"carol", "p", 0, 3, []⟩], [wSci], [wPost1], []⟩

def wCom3 : Comment := .mk "c3" "z" "carol" "c2" 3 0 []

def wCom2 : Comment := .mk "c2" "y" "bob" "c1" 2 0 [wCom3]

def wCom1 : Comment := .mk "c1" "x" "alice" "" 1 0 [wCom2]

def wPostC : Post := ⟨"post2", "T", "B", "alice", "science", 6, 0, [wCom1]⟩

def wEngC : RedditEngine := ⟨[wAlice], [wSci], [wPostC], []⟩

def wDM : DirectMessage := .mk "dm1" "alice" "bob" "hi" 10 []

def wEngD : RedditEngine := ⟨[wAlice, wBob], [], [], [("bob", [wDM])]⟩

def wPostX : Post := ⟨"post9", "T", "B", "ghost", "science", 7, 4, []⟩

def wEngX : RedditEngine := ⟨[wAlice], [wSci], [wPostX], []⟩

/-- `find?` after a keyed in-place update: looking up the updated key sees
the update applied; other keys are untouched. -/
theorem find?_keyUpdate {α : Type} (key : α → String) (l : List α) (k q : String)
    (f : α → α) (hf : ∀ x, key (f x) = key x) :
    (l.map (fun x => if key x = k then f x else x)).find? (fun x => key x = q) =
      if k = q then ((l.find? (fun x => key x = q)).map f)
      else l.find? (fun x => key x = q) := by
  induction l with
  | nil => simp
  | cons x xs ih =>
    by_cases hxk : key x = k
    · by_cases hkq : k = q
      · subst hkq
        simp [List.find?_cons, hxk, hf, ih]
      · have hxq : key x ≠ q := by rw [hxk]; exact hkq
        simp [List.find?_cons, hxk, hf, hxq, ih, hkq]
    · by_cases hxq : key x = q
      · have hkq : k ≠ q := fun h => hxk (hxq.trans h.symm)
        simp [List.find?_cons, List.map_cons, hxk, hxq, hkq, Ne.symm hkq]
      · simp [List.find?_cons, List.map_cons, hxk, hxq, ih]

theorem findUser_updateUser (e : RedditEngine) (k q : String) (f : User → User)
    (hf : ∀ u, (f u).Username = u.Username) :
    findUser { e with users := updateUser e.users k f } q =
      if k = q then (findUser e q).map f else findUser e q := by
  simpa [findUser, updateUser] using
    find?_keyUpdate User.Username e.users k q f hf

theorem findSubreddit_updateSubreddit (e : RedditEngine) (k q : String)
    (f : Subreddit → Subreddit) (hf : ∀ s, (f s).Name = s.Name) :
    findSubreddit { e with subreddits := updateSubreddit e.subreddits k f } q =
      if k = q then (findSubreddit e q).map f else findSubreddit e q := by
  simpa [findSubreddit, updateSubreddit] using
    find?_keyUpdate Subreddit.Name e.subreddits k q f hf

theorem findPost_updatePost (e : RedditEngine) (k q : String) (f : Post → Post)
    (hf : ∀ p, (f p).ID = p.ID) :
    findPost { e with posts := updatePost e.posts k f } q =
      if k = q then (findPost e q).map f else findPost e q := by
  simpa [findPost, updatePost] using
    find?_keyUpdate Post.ID e.posts k q f hf

/-- Claim C5: a first `RegisterUser` for an unused username succeeds and
creates a user with karma 0 and an empty joined-subreddits set, and any
second registration of the same username fails with the already-exists
error (an error returns no new state, so the user map is unchanged). -/
theorem registerUser_first_ok_second_fails (e : RedditEngine) (u p : String) (now : Nat)
    (h : findUser e u = none) :
    ∃ e2, RegisterUser e u p now = .ok e2 ∧
      e2.users = e.users ++ [⟨u, p, 0, now, []⟩] ∧
      findUser e2 u = some ⟨u, p, 0, now, []⟩ ∧
      ∀ p2 now2, RegisterUser e2 u p2 now2 = .error "user already exists" := by
  have hreg : RegisterUser e u p now =
      .ok { e with users := e.users ++ [⟨u, p, 0, now, []⟩] } := by
    simp [RegisterUser, h]
  refine ⟨_, hreg, rfl, ?_, ?_⟩
  · have : findUser e u = none := h
    simp [findUser] at this
    simp [findUser, List.find?_append, this]
    exact Or.inr this
  · intro p2 now2
    have hfind : findUser { e with users := e.users ++ [⟨u, p, 0, now, []⟩] } u =
        some ⟨u, p, 0, now, []⟩ := by
      simp [findUser] at h
      simp [findUser, List.find?_append, h]
      exact Or.inr h
    simp [RegisterUser, hfind]

/-- Claim C8: voting on a post whose author is not a registered user still
succeeds and applies the usual counter update (+2 or -1), while the karma update
is silently skipped: the user map (and everything else but the post) is
unchanged and no error is reported. -/
theorem votePost_unregistered_author (e : RedditEngine) (pid : String) (b : Bool) (post : Post)
    (hp : findPost e pid = some post) (ha : findUser e post.Author = none) :
    ∃ e2, VotePost e pid b = .ok e2 ∧
      e2.users = e.users ∧ e2.subreddits = e.subreddits ∧
      e2.directMessages = e.directMessages ∧
      findPost e2 pid = some { post with Votes := post.Votes + if b then 2 else -1 } := by
  have hku : ∀ ps v, updateKarma { e with posts := ps } post.Author v = { e with posts := ps } := by
    intro ps v
    have hnone : findUser { e with posts := ps } post.Author = none := by
      simp [findUser] at ha ⊢
      exact ha
    simp [updateKarma, hnone]
  cases b with
  | false =>
    refine ⟨{ e with posts := updatePost e.posts pid (fun p => { p with Votes := p.Votes - 1 }) }, ?_, rfl, rfl, rfl, ?_⟩
    · simp [VotePost, hp, hku]
    · have hfp := findPost_updatePost e pid pid
        (fun p => { p with Votes := p.Votes - 1 }) (fun p => rfl)
      simp [hp] at hfp
      simp only [sub_eq_add_neg] at hfp
      simpa [sub_eq_add_neg] using hfp
  | true =>
    refine ⟨{ e with posts := updatePost e.posts pid (fun p => { p with Votes := p.Votes + 2 }) }, ?_, rfl, rfl, rfl, ?_⟩
    · simp [VotePost, hp, hku]
    · have hfp := findPost_updatePost e pid pid
        (fun p => { p with Votes := p.Votes + 2 }) (fun p => rfl)
      simp [hp] at hfp
      simp [hfp]

/-- Claim C10: `GetDirectMessages` fails with the user-not-found error
exactly for unregistered usernames; for a registered user who never
received a message (no lazily created inbox entry) it succeeds and returns
the empty sequence. -/
theorem getDirectMessages_contract (e : RedditEngine) (u : String) :
    (findUser e u = none → GetDirectMessages e u = .error "user not found") ∧
    (∀ user, findUser e u = some user →
      GetDirectMessages e u = .ok (inboxOf e u) ∧
      (e.directMessages.find? (fun kv => kv.1 = u) = none →
        GetDirectMessages e u = .ok [])) := by
  constructor
  · intro h
    simp [GetDirectMessages, h, Option.isNone]
  · intro user h
    constructor
    · simp [GetDirectMessages, h]
    · intro hnone
      simp [GetDirectMessages, h, inboxOf, hnone]

theorem updateKarma_fields (e : RedditEngine) (a : String) (v : Int) :
    (updateKarma e a v).posts = e.posts ∧
    (updateKarma e a v).subreddits = e.subreddits ∧
    (updateKarma e a v).directMessages = e.directMessages := by
  unfold updateKarma
  cases findUser e a <;> exact ⟨rfl, rfl, rfl⟩

theorem findUser_updateKarma (e : RedditEngine) (a : String) (v : Int) (m : String) :
    findUser (updateKarma e a v) m =
      if m = a then (findUser e m).map (fun u => { u with Karma := u.Karma + v })
      else findUser e m := by
  cases h : findUser e a with
  | none =>
    have : updateKarma e a v = e := by simp [updateKarma, h]
    rw [this]
    by_cases hm : m = a
    · subst hm
      simp [h]
    · simp [hm]
  | some user =>
    have hup : updateKarma e a v =
        { e with users := updateUser e.users a (fun u => { u with Karma := u.Karma + v }) } := by
      simp [updateKarma, h]
    rw [hup]
    have hc := findUser_updateUser e a m (fun u => { u with Karma := u.Karma + v }) (fun u => rfl)
    rw [hc]
    by_cases hm : m = a
    · subst hm
      simp
    · rw [if_neg (fun hh : a = m => hm hh.symm), if_neg hm]

theorem votePost_step (e : RedditEngine) (pid : String) (b : Bool) (post : Post)
    (hp : findPost e pid = some post) :
    ∃ e2, VotePost e pid b = .ok e2 ∧
      findPost e2 pid = some { post with Votes := post.Votes + (if b then 2 else -1) } ∧
      (∀ m, findUser e2 m =
        if m = post.Author then
          (findUser e m).map (fun u => { u with Karma := u.Karma + (if b then 1 else -1) })
        else findUser e m) ∧
      e2.subreddits = e.subreddits ∧ e2.directMessages = e.directMessages := by
  cases b with
  | true =>
    refine ⟨updateKarma { e with posts := updatePost e.posts pid (fun p => { p with Votes := p.Votes + 2 }) } post.Author 1, ?_, ?_, ?_, ?_, ?_⟩
    · simp [VotePost, hp]
    · have h1 := (updateKarma_fields { e with posts := updatePost e.posts pid (fun p => { p with Votes := p.Votes + 2 }) } post.Author 1).1
      have h2 := findPost_updatePost e pid pid (fun p => { p with Votes := p.Votes + 2 }) (fun p => rfl)
      simp [hp] at h2
      simp [findPost] at h1 h2 ⊢
      rw [h1, h2]
    · intro m
      have h3 := findUser_updateKarma { e with posts := updatePost e.posts pid (fun p => { p with Votes := p.Votes + 2 }) } post.Author 1 m
      rw [h3]
      simp [findUser]
    · exact (updateKarma_fields _ _ _).2.1
    · exact (updateKarma_fields _ _ _).2.2
  | false =>
    refine ⟨updateKarma { e with posts := updatePost e.posts pid (fun p => { p with Votes := p.Votes - 1 }) } post.Author (-1), ?_, ?_, ?_, ?_, ?_⟩
    · simp [VotePost, hp]
    · have h1 := (updateKarma_fields { e with posts := updatePost e.posts pid (fun p => { p with Votes := p.Votes - 1 }) } post.Author (-1)).1
      have h2 := findPost_updatePost e pid pid (fun p => { p with Votes := p.Votes - 1 }) (fun p => rfl)
      simp [hp] at h2
      simp [findPost] at h1 h2 ⊢
      rw [h1, h2]
      simp [sub_eq_add_neg]
    · intro m
      have h3 := findUser_updateKarma { e with posts := updatePost e.posts pid (fun p => { p with Votes := p.Votes - 1 }) } post.Author (-1) m
      rw [h3]
      simp [findUser]
    · exact (updateKarma_fields _ _ _).2.1
    · exact (updateKarma_fields _ _ _).2.2

theorem applyVotes_spec (pid : String) (bs : List Bool) :
    ∀ e post, findPost e pid = some post →
    ∃ e2, applyVotes e pid bs = .ok e2 ∧
      findPost e2 pid =
        some { post with Votes := post.Votes + (2 * (bs.count true : Int) - (bs.count false : Int)) } ∧
      (∀ m, findUser e2 m =
        if m = post.Author then
          (findUser e m).map
            (fun u => { u with Karma := u.Karma + ((bs.count true : Int) - (bs.count false : Int)) })
        else findUser e m) := by
  induction bs with
  | nil =>
    intro e post hp
    refine ⟨e, rfl, ?_, ?_⟩
    · simpa using hp
    · intro m
      by_cases hm : m = post.Author
      · simp [hm]
      · simp [hm]
  | cons b bs ih =>
    intro e post hp
    obtain ⟨e1, hv, hp1, hu1, _, _⟩ := votePost_step e pid b post hp
    obtain ⟨e2, ha, hp2, hu2⟩ := ih e1 _ hp1
    refine ⟨e2, ?_, ?_, ?_⟩
    · simp [applyVotes, hv, ha]
    · rw [hp2]
      congr 1
      cases b <;> simp [List.count_cons] <;> ring
    · intro m
      rw [hu2 m]
      by_cases hm : m = post.Author
      · simp only [hm, if_pos rfl] at hu1 ⊢
        rw [hu1 post.Author]
        simp only [if_pos rfl, Option.map_map]
        cases findUser e post.Author with
        | none => simp
        | some u =>
          simp [Function.comp]
          cases b <;> simp [List.count_cons] <;> ring
      · have h1 := hu1 m
        simp only [hm, ite_false] at h1 ⊢
        exact h1

/-- Claim C1: for any sequence of N upvotes and M downvotes applied through
`VotePost` to a post present in the store with a fresh (zero) vote counter,
the calls all succeed, the post's counter ends at `2N - M`, and if the
post's author is a registered user that author's karma changes by exactly
`N - M` (upvote: +2 counter, +1 karma; downvote: -1 counter, -1 karma). -/
theorem votePost_sequence_counter_karma (e : RedditEngine) (pid : String) (post : Post)
    (bs : List Bool) (hp : findPost e pid = some post) (hfresh : post.Votes = 0) :
    ∃ e2, applyVotes e pid bs = .ok e2 ∧
      (∃ post2, findPost e2 pid = some post2 ∧ post2.Author = post.Author ∧
        post2.Votes = 2 * (bs.count true : Int) - (bs.count false : Int)) ∧
      (∀ user, findUser e post.Author = some user →
        ∃ user2, findUser e2 post.Author = some user2 ∧
          user2.Karma = user.Karma + ((bs.count true : Int) - (bs.count false : Int))) := by
  obtain ⟨e2, ha, hp2, hu⟩ := applyVotes_spec pid bs e post hp
  refine ⟨e2, ha, ⟨_, hp2, rfl, by simp [hfresh]⟩, ?_⟩
  intro user huser
  have h1 := hu post.Author
  rw [if_pos rfl, huser] at h1
  exact ⟨_, h1, rfl⟩

theorem mem_setInsert_self (l : List String) (x : String) : x ∈ setInsert l x := by
  by_cases h : x ∈ l <;> simp [setInsert, h]

theorem setInsert_idem (l : List String) (x : String) (h : x ∈ l) : setInsert l x = l := by
  simp [setInsert, h]

theorem setDelete_of_not_mem (l : List String) (x : String) (h : x ∉ l) : setDelete l x = l := by
  refine List.filter_eq_self.mpr ?_
  intro y hy
  have hyx : y ≠ x := fun hyx => h (hyx ▸ hy)
  simpa using hyx

theorem setDelete_setInsert (l : List String) (x : String) (h : x ∉ l) :
    setDelete (setInsert l x) x = l := by
  simp only [setInsert, h, ite_false, setDelete, List.filter_append]
  have h1 : l.filter (fun y => y ≠ x) = l := setDelete_of_not_mem l x h
  simp [h1]
  intro a ha
  exact fun hax => h (hax ▸ ha)

theorem map_keyUpdate_comp {α : Type} (key : α → String) (l : List α) (k : String)
    (f g : α → α) (hf : ∀ x, key (f x) = key x) :
    ((l.map fun x => if key x = k then f x else x).map fun x => if key x = k then g x else x) =
      l.map fun x => if key x = k then g (f x) else x := by
  rw [List.map_map]
  apply List.map_congr_left
  intro x _
  by_cases h : key x = k <;> simp [h, hf]

theorem findUser_mk (us : List User) (ss : List Subreddit) (ps : List Post)
    (dms : List (String × List DirectMessage)) (q : String) :
    findUser ⟨us, ss, ps, dms⟩ q = us.find? (fun u => u.Username = q) := rfl

theorem findSubreddit_mk (us : List User) (ss : List Subreddit) (ps : List Post)
    (dms : List (String × List DirectMessage)) (q : String) :
    findSubreddit ⟨us, ss, ps, dms⟩ q = ss.find? (fun s => s.Name = q) := rfl

theorem find?_updateUser (us : List User) (k q : String) (f : User → User)
    (hf : ∀ u, (f u).Username = u.Username) :
    (updateUser us k f).find? (fun u => u.Username = q) =
      if k = q then (us.find? (fun u => u.Username = q)).map f
      else us.find? (fun u => u.Username = q) :=
  find?_keyUpdate User.Username us k q f hf

theorem find?_updateSubreddit (ss : List Subreddit) (k q : String) (f : Subreddit → Subreddit)
    (hf : ∀ s, (f s).Name = s.Name) :
    (updateSubreddit ss k f).find? (fun s => s.Name = q) =
      if k = q then (ss.find? (fun s => s.Name = q)).map f
      else ss.find? (fun s => s.Name = q) :=
  find?_keyUpdate Subreddit.Name ss k q f hf

theorem LeaveSubreddit_ok (e : RedditEngine) (un sn : String) (user : User) (sub : Subreddit)
    (hu : findUser e un = some user) (hs : findSubreddit e sn = some sub) :
    LeaveSubreddit e un sn = .ok
      { e with
        users := updateUser e.users un
          (fun u => { u with Subreddits := setDelete u.Subreddits sn }),
        subreddits := updateSubreddit e.subreddits sn
          (fun s => { s with Members := setDelete s.Members un }) } := by
  simp [LeaveSubreddit, hu, hs]

/-- Claim C6: `LeaveSubreddit` fails with a not-found error exactly when
the user or the subreddit is missing; when both exist it deletes the
subreddit from the user's joined set and the user from the member set, and
deleting an absent entry is a no-op that still succeeds; joining twice
equals joining once (idempotent) and leaving after joining restores the
previous membership state (inverse). -/
theorem leaveSubreddit_contract (e : RedditEngine) (un sn : String) :
    ((∃ msg, LeaveSubreddit e un sn = .error msg) ↔
      (findUser e un = none ∨ findSubreddit e sn = none)) ∧
    (∀ user sub, findUser e un = some user → findSubreddit e sn = some sub →
      ∃ e2, LeaveSubreddit e un sn = .ok e2 ∧
        findUser e2 un = some { user with Subreddits := setDelete user.Subreddits sn } ∧
        findSubreddit e2 sn = some { sub with Members := setDelete sub.Members un } ∧
        (sn ∉ user.Subreddits → findUser e2 un = some user)) ∧
    (∀ e1, JoinSubreddit e un sn = .ok e1 → JoinSubreddit e1 un sn = .ok e1) ∧
    (∀ user sub e1, findUser e un = some user → findSubreddit e sn = some sub →
      sn ∉ user.Subreddits → un ∉ sub.Members →
      JoinSubreddit e un sn = .ok e1 →
      ∃ e2, LeaveSubreddit e1 un sn = .ok e2 ∧
        findUser e2 un = some user ∧ findSubreddit e2 sn = some sub) := by
  have hOk : ∀ user sub, findUser e un = some user → findSubreddit e sn = some sub →
      LeaveSubreddit e un sn = .ok
        { e with
          users := updateUser e.users un
            (fun u => { u with Subreddits := setDelete u.Subreddits sn }),
          subreddits := updateSubreddit e.subreddits sn
            (fun s => { s with Members := setDelete s.Members un }) } := by
    intro user sub hu hs
    simp [LeaveSubreddit, hu, hs]
  refine ⟨?_, ?_, ?_, ?_⟩
  · constructor
    · rintro ⟨msg, hmsg⟩
      by_cases hu : findUser e un = none
      · exact Or.inl hu
      obtain ⟨user, huser⟩ := Option.ne_none_iff_exists'.mp hu
      by_cases hs : findSubreddit e sn = none
      · exact Or.inr hs
      obtain ⟨sub, hsub⟩ := Option.ne_none_iff_exists'.mp hs
      rw [hOk user sub huser hsub] at hmsg
      cases hmsg
    · rintro (hu | hs)
      · exact ⟨"user not found", by simp [LeaveSubreddit, hu]⟩
      · cases huc : findUser e un with
        | none => exact ⟨"user not found", by simp [LeaveSubreddit, huc]⟩
        | some user => exact ⟨"subreddit not found", by simp [LeaveSubreddit, huc, hs]⟩
  · intro user sub hu hs
    have hu2 : findUser
        { e with
          users := updateUser e.users un
            (fun u => { u with Subreddits := setDelete u.Subreddits sn }),
          subreddits := updateSubreddit e.subreddits sn
            (fun s => { s with Members := setDelete s.Members un }) } un =
        some { user with Subreddits := setDelete user.Subreddits sn } := by
      rw [findUser_mk, find?_updateUser e.users un un
        (fun u => { u with Subreddits := setDelete u.Subreddits sn }) (fun u => rfl), if_pos rfl]
      have hu' : e.users.find? (fun u => u.Username = un) = some user := hu
      rw [hu']
      rfl
    refine ⟨_, hOk user sub hu hs, hu2, ?_, ?_⟩
    · rw [findSubreddit_mk, find?_updateSubreddit e.subreddits sn sn
        (fun s => { s with Members := setDelete s.Members un }) (fun s => rfl), if_pos rfl]
      have hs' : e.subreddits.find? (fun s => s.Name = sn) = some sub := hs
      rw [hs']
      rfl
    · intro hnot
      rw [hu2, setDelete_of_not_mem _ _ hnot]
  · intro e1 hJ
    cases huc : findUser e un with
    | none => simp [JoinSubreddit, huc] at hJ
    | some user0 =>
      cases hsc : findSubreddit e sn with
      | none => simp [JoinSubreddit, huc, hsc] at hJ
      | some sub0 =>
        have he1 : e1 =
            { e with
              users := updateUser e.users un
                (fun u => { u with Subreddits := setInsert u.Subreddits sn }),
              subreddits := updateSubreddit e.subreddits sn
                (fun s => { s with Members := setInsert s.Members un }) } := by
          simp [JoinSubreddit, huc, hsc] at hJ
          exact hJ.symm
        subst he1
        have hu1 : findUser
            { e with
              users := updateUser e.users un
                (fun u => { u with Subreddits := setInsert u.Subreddits sn }),
              subreddits := updateSubreddit e.subreddits sn
                (fun s => { s with Members := setInsert s.Members un }) } un =
            some { user0 with Subreddits := setInsert user0.Subreddits sn } := by
          rw [findUser_mk, find?_updateUser e.users un un
            (fun u => { u with Subreddits := setInsert u.Subreddits sn }) (fun u => rfl), if_pos rfl]
          have hu' : e.users.find? (fun u => u.Username = un) = some user0 := huc
          rw [hu']
          rfl
        have hs1 : findSubreddit
            { e with
              users := updateUser e.users un
                (fun u => { u with Subreddits := setInsert u.Subreddits sn }),
              subreddits := updateSubreddit e.subreddits sn
                (fun s => { s with Members := setInsert s.Members un }) } sn =
            some { sub0 with Members := setInsert sub0.Members un } := by
          rw [findSubreddit_mk, find?_updateSubreddit e.subreddits sn sn
            (fun s => { s with Members := setInsert s.Members un }) (fun s => rfl), if_pos rfl]
          have hs' : e.subreddits.find? (fun s => s.Name = sn) = some sub0 := hsc
          rw [hs']
          rfl
        have husers : updateUser (updateUser e.users un
              (fun u => { u with Subreddits := setInsert u.Subreddits sn })) un
              (fun u => { u with Subreddits := setInsert u.Subreddits sn }) =
            updateUser e.users un
              (fun u => { u with Subreddits := setInsert u.Subreddits sn }) := by
          simp only [updateUser]
          rw [map_keyUpdate_comp User.Username e.users un
            (fun u => { u with Subreddits := setInsert u.Subreddits sn })
            (fun u => { u with Subreddits := setInsert u.Subreddits sn }) (fun u => rfl)]
          apply List.map_congr_left
          intro x _
          by_cases h : x.Username = un <;>
            simp [h, setInsert_idem _ _ (mem_setInsert_self _ _)]
        have hsubs : updateSubreddit (updateSubreddit e.subreddits sn
              (fun s => { s with Members := setInsert s.Members un })) sn
              (fun s => { s with Members := setInsert s.Members un }) =
            updateSubreddit e.subreddits sn
              (fun s => { s with Members := setInsert s.Members un }) := by
          simp only [updateSubreddit]
          rw [map_keyUpdate_comp Subreddit.Name e.subreddits sn
            (fun s => { s with Members := setInsert s.Members un })
            (fun s => { s with Members := setInsert s.Members un }) (fun s => rfl)]
          apply List.map_congr_left
          intro x _
          by_cases h : x.Name = sn <;>
            simp [h, setInsert_idem _ _ (mem_setInsert_self _ _)]
        simp only [JoinSubreddit, hu1, hs1]
        rw [husers, hsubs]
  · intro user sub e1 hu hs hnotS hnotM hJ
    have he1 : e1 =
        { e with
          users := updateUser e.users un
            (fun u => { u with Subreddits := setInsert u.Subreddits sn }),
          subreddits := updateSubreddit e.subreddits sn
            (fun s => { s with Members := setInsert s.Members un }) } := by
      simp [JoinSubreddit, hu, hs] at hJ
      exact hJ.symm
    subst he1
    have hu1 : findUser
        { e with
          users := updateUser e.users un
            (fun u => { u with Subreddits := setInsert u.Subreddits sn }),
          subreddits := updateSubreddit e.subreddits sn
            (fun s => { s with Members := setInsert s.Members un }) } un =
        some { user with Subreddits := setInsert user.Subreddits sn } := by
      rw [findUser_mk, find?_updateUser e.users un un
        (fun u => { u with Subreddits := setInsert u.Subreddits sn }) (fun u => rfl), if_pos rfl]
      have hu' : e.users.find? (fun u => u.Username = un) = some user := hu
      rw [hu']
      rfl
    have hs1 : findSubreddit
        { e with
          users := updateUser e.users un
            (fun u => { u with Subreddits := setInsert u.Subreddits sn }),
          subreddits := updateSubreddit e.subreddits sn
            (fun s => { s with Members := setInsert s.Members un }) } sn =
        some { sub with Members := setInsert sub.Members un } := by
      rw [findSubreddit_mk, find?_updateSubreddit e.subreddits sn sn
        (fun s => { s with Members := setInsert s.Members un }) (fun s => rfl), if_pos rfl]
      have hs' : e.subreddits.find? (fun s => s.Name = sn) = some sub := hs
      rw [hs']
      rfl
    refine ⟨_, LeaveSubreddit_ok _ un sn _ _ hu1 hs1, ?_, ?_⟩
    · rw [findUser_mk]
      rw [find?_updateUser _ un un
        (fun u => { u with Subreddits := setDelete u.Subreddits sn }) (fun u => rfl), if_pos rfl]
      rw [find?_updateUser e.users un un
        (fun u => { u with Subreddits := setInsert u.Subreddits sn }) (fun u => rfl), if_pos rfl]
      have hu' : e.users.find? (fun u => u.Username = un) = some user := hu
      rw [hu']
      simp [setDelete_setInsert _ _ hnotS]
    · rw [findSubreddit_mk]
      rw [find?_updateSubreddit _ sn sn
        (fun s => { s with Members := setDelete s.Members un }) (fun s => rfl), if_pos rfl]
      rw [find?_updateSubreddit e.subreddits sn sn
        (fun s => { s with Members := setInsert s.Members un }) (fun s => rfl), if_pos rfl]
      have hs' : e.subreddits.find? (fun s => s.Name = sn) = some sub := hs
      rw [hs']
      simp [setDelete_setInsert _ _ hnotM]

theorem insertUnder_none_iff (cs : List Comment) (pid : String) (c : Comment) :
    insertUnder cs pid c = none ↔ findComment cs pid = none := by
  induction cs, pid, c using insertUnder.induct with
  | case1 x c => simp [insertUnder, findComment]
  | case2 cn a p t v cs rest pid c =>
    simp [insertUnder, findComment]
  | case3 i cn a p t v cs rest pid c hne cs2 hins ih =>
    have hfind : findComment cs pid ≠ none := by
      intro hX
      rw [← ih] at hX
      simp [hins] at hX
    obtain ⟨found, hfound⟩ := Option.ne_none_iff_exists'.mp hfind
    simp [insertUnder, findComment, hne, hins, hfound]
  | case4 i cn a p t v cs rest pid c hne hnone rest2 hins ihcs ihrest =>
    have hfind : findComment cs pid = none := ihcs.mp hnone
    have hrest : findComment rest pid ≠ none := by
      intro hX
      rw [← ihrest] at hX
      simp [hins] at hX
    obtain ⟨found, hfound⟩ := Option.ne_none_iff_exists'.mp hrest
    simp [insertUnder, findComment, hne, hnone, hins, hfind, hfound]
  | case5 i cn a p t v cs rest pid c hne hnone hnone2 ihcs ihrest =>
    have hfind : findComment cs pid = none := ihcs.mp hnone
    have hrest : findComment rest pid = none := ihrest.mp hnone2
    simp [insertUnder, findComment, hne, hnone, hnone2, hfind, hrest]

theorem findComment_insertUnder (cs : List Comment) (pid : String) (c : Comment) :
    ∀ parent, findComment cs pid = some parent →
    ∀ cs2, insertUnder cs pid c = some cs2 →
    findComment cs2 pid = some (parent.addChild c) := by
  induction cs, pid, c using insertUnder.induct with
  | case1 x c =>
    intro parent hparent
    simp [findComment] at hparent
  | case2 cn a p t v cs rest pid c =>
    intro parent hparent cs2 hins
    simp [findComment] at hparent
    simp [insertUnder] at hins
    subst hins
    simp [findComment, ← hparent, Comment.addChild]
  | case3 i cn a p t v cs rest pid c hne cs2i hins ih =>
    intro parent hparent cs2 hcs2
    have hfind : findComment cs pid ≠ none := by
      intro hX
      rw [← insertUnder_none_iff cs pid c] at hX
      simp [hins] at hX
    obtain ⟨found, hfound⟩ := Option.ne_none_iff_exists'.mp hfind
    have hparent2 : found = parent := by
      simp [findComment, hne, hfound] at hparent
      exact hparent
    subst hparent2
    simp [insertUnder, hne, hins] at hcs2
    subst hcs2
    have hrec := ih found hfound cs2i hins
    simp [findComment, hne, hrec]
  | case4 i cn a p t v cs rest pid c hne hnone rest2 hins ihcs ihrest =>
    intro parent hparent cs2 hcs2
    have hfind : findComment cs pid = none := (insertUnder_none_iff cs pid c).mp hnone
    have hparent2 : findComment rest pid = some parent := by
      simpa [findComment, hne, hfind] using hparent
    simp [insertUnder, hne, hnone, hins] at hcs2
    subst hcs2
    have hrec := ihrest parent hparent2 rest2 hins
    simp [findComment, hne, hfind, hrec]
  | case5 i cn a p t v cs rest pid c hne hnone hnone2 ihcs ihrest =>
    intro parent hparent cs2 hcs2
    simp [insertUnder, hne, hnone, hnone2] at hcs2

theorem countComments_append (l1 l2 : List Comment) :
    countComments (l1 ++ l2) = countComments l1 + countComments l2 := by
  induction l1 with
  | nil => simp [countComments]
  | cons x xs ih =>
    cases x with
    | mk i cn a p t v cs => simp [countComments, ih]; omega

theorem countComments_insertUnder (cs : List Comment) (pid : String) (c : Comment) :
    ∀ cs2, insertUnder cs pid c = some cs2 →
    countComments cs2 = countComments cs + countComments [c] := by
  induction cs, pid, c using insertUnder.induct with
  | case1 x c =>
    intro cs2 h
    simp [insertUnder] at h
  | case2 cn a p t v cs rest pid c =>
    intro cs2 h
    simp [insertUnder] at h
    subst h
    cases c with
    | mk ci ccn ca cp ct cv ccs =>
      simp [countComments, countComments_append]
      omega
  | case3 i cn a p t v cs rest pid c hne cs2i hins ih =>
    intro cs2 h
    simp [insertUnder, hne, hins] at h
    subst h
    have hrec := ih cs2i hins
    simp [countComments, hrec]
    omega
  | case4 i cn a p t v cs rest pid c hne hnone rest2 hins ihcs ihrest =>
    intro cs2 h
    simp [insertUnder, hne, hnone, hins] at h
    subst h
    have hrec := ihrest rest2 hins
    simp [countComments, hrec]
    omega
  | case5 i cn a p t v cs rest pid c hne hnone hnone2 ihcs ihrest =>
    intro cs2 h
    simp [insertUnder, hne, hnone, hnone2] at h

/-- Claim C2: `AddComment` fails with the post-not-found error for an
unknown post id; with an empty parent id it appends the new comment to the
post's top-level sequence; with a non-empty parent id it fails with the
parent-comment-not-found error exactly when the depth-first search finds no
node with that id, and otherwise appends the new comment as a child of
exactly the node `findComment` returns (however deep), growing the tree by
exactly one node. -/
theorem addComment_contract (e : RedditEngine) (content author postID pcid cid : String)
    (now : Nat) :
    (findPost e postID = none →
      AddComment e content author postID pcid cid now = .error "post not found") ∧
    (∀ post, findPost e postID = some post →
      (pcid = "" →
        ∃ e2, AddComment e content author postID pcid cid now =
            .ok (Comment.mk cid content author pcid now 0 [], e2) ∧
          findPost e2 postID = some { post with
            Comments := post.Comments ++ [Comment.mk cid content author pcid now 0 []] }) ∧
      (pcid ≠ "" → findComment post.Comments pcid = none →
        AddComment e content author postID pcid cid now = .error "parent comment not found") ∧
      (pcid ≠ "" → ∀ parent, findComment post.Comments pcid = some parent →
        ∃ cs2 e2,
          insertUnder post.Comments pcid (Comment.mk cid content author pcid now 0 []) =
            some cs2 ∧
          AddComment e content author postID pcid cid now =
            .ok (Comment.mk cid content author pcid now 0 [], e2) ∧
          findPost e2 postID = some { post with Comments := cs2 } ∧
          findComment cs2 pcid =
            some (parent.addChild (Comment.mk cid content author pcid now 0 [])) ∧
          countComments cs2 = countComments post.Comments + 1)) := by
  refine ⟨?_, ?_⟩
  · intro h
    simp [AddComment, h]
  · intro post hp
    refine ⟨?_, ?_, ?_⟩
    · intro hempty
      subst hempty
      have hA : AddComment e content author postID "" cid now =
          .ok (Comment.mk cid content author "" now 0 [],
            { e with posts := updatePost e.posts postID (fun p => { p with Comments := p.Comments ++ [Comment.mk cid content author "" now 0 []] }) }) := by
        simp [AddComment, hp]
      refine ⟨_, hA, ?_⟩
      have hfp := findPost_updatePost e postID postID
        (fun p => { p with Comments := p.Comments ++ [Comment.mk cid content author "" now 0 []] })
        (fun p => rfl)
      simp only [if_pos rfl, hp, Option.map_some] at hfp
      exact hfp
    · intro hne hnone
      have hin : insertUnder post.Comments pcid (Comment.mk cid content author pcid now 0 []) =
          none := (insertUnder_none_iff _ _ _).mpr hnone
      simp [AddComment, hp, hne, hin]
    · intro hne parent hparent
      have hin : insertUnder post.Comments pcid (Comment.mk cid content author pcid now 0 []) ≠
          none := by
        intro hX
        rw [insertUnder_none_iff] at hX
        rw [hX] at hparent
        cases hparent
      obtain ⟨cs2, hcs2⟩ := Option.ne_none_iff_exists'.mp hin
      have hA : AddComment e content author postID pcid cid now =
          .ok (Comment.mk cid content author pcid now 0 [],
            { e with posts := updatePost e.posts postID (fun p => { p with Comments := cs2 }) }) := by
        simp [AddComment, hp, hne, hcs2]
      refine ⟨cs2, _, hcs2, hA, ?_, ?_, ?_⟩
      · have hfp := findPost_updatePost e postID postID
          (fun p => { p with Comments := cs2 }) (fun p => rfl)
        simp only [if_pos rfl, hp, Option.map_some] at hfp
        exact hfp
      · exact findComment_insertUnder post.Comments pcid
          (Comment.mk cid content author pcid now 0 []) parent hparent cs2 hcs2
      · have := countComments_insertUnder post.Comments pcid
          (Comment.mk cid content author pcid now 0 []) cs2 hcs2
        simpa [countComments] using this

theorem inboxOf_attachReply (e : RedditEngine) (mid : String) (reply : DirectMessage)
    (k : String) :
    inboxOf { e with directMessages := attachReply e.directMessages mid reply } k =
      (inboxOf e k).map (fun dm =>
        if dm.ID = mid then
          DirectMessage.mk dm.ID dm.From dm.To dm.Content dm.CreatedAt (dm.Replies ++ [reply])
        else dm) := by
  simp only [inboxOf, attachReply]
  rw [List.find?_map]
  have hcomp : ((fun kv : String × List DirectMessage => decide (kv.1 = k)) ∘
      (fun kv : String × List DirectMessage => (kv.1, kv.2.map (fun dm =>
        if dm.ID = mid then
          DirectMessage.mk dm.ID dm.From dm.To dm.Content dm.CreatedAt (dm.Replies ++ [reply])
        else dm)))) = fun kv : String × List DirectMessage => decide (kv.1 = k) := by
    funext kv
    rfl
  rw [hcomp]
  cases e.directMessages.find? (fun kv : String × List DirectMessage => decide (kv.1 = k)) with
  | none => simp
  | some kv => simp

/-- Claim C4: `ReplyToDirectMessage` fails with the original-message-not-
found error (returning no state change) when no top-level inbox holds the
id; on success the reply's recipient is the original message's sender
(directionality flips) and the reply is appended only to that message's
reply sequence: every top-level inbox keeps its exact length, non-matching
messages are untouched, so the reply enters no one's top-level inbox. -/
theorem replyToDirectMessage_contract (e : RedditEngine) (mid fromU content rid : String)
    (now : Nat) :
    (findDM e.directMessages mid = none →
      ReplyToDirectMessage e mid fromU content rid now = .error "original message not found") ∧
    (∀ orig, findDM e.directMessages mid = some orig →
      ∃ e2, ReplyToDirectMessage e mid fromU content rid now =
          .ok (DirectMessage.mk rid fromU orig.From content now [], e2) ∧
        (DirectMessage.mk rid fromU orig.From content now []).To = orig.From ∧
        e2.users = e.users ∧ e2.subreddits = e.subreddits ∧ e2.posts = e.posts ∧
        (∀ k, inboxOf e2 k = (inboxOf e k).map (fun dm =>
          if dm.ID = mid then
            DirectMessage.mk dm.ID dm.From dm.To dm.Content dm.CreatedAt
              (dm.Replies ++ [DirectMessage.mk rid fromU orig.From content now []])
          else dm)) ∧
        (∀ k, (inboxOf e2 k).length = (inboxOf e k).length) ∧
        (∀ k dm, dm ∈ inboxOf e k → dm.ID ≠ mid → dm ∈ inboxOf e2 k) ∧
        (∀ k dm, dm ∈ inboxOf e k → dm.ID = mid →
          DirectMessage.mk dm.ID dm.From dm.To dm.Content dm.CreatedAt
            (dm.Replies ++ [DirectMessage.mk rid fromU orig.From content now []]) ∈
            inboxOf e2 k)) := by
  refine ⟨?_, ?_⟩
  · intro h
    simp [ReplyToDirectMessage, h]
  · intro orig horig
    refine ⟨{ e with directMessages := attachReply e.directMessages mid (DirectMessage.mk rid fromU orig.From content now []) }, ?_, rfl, rfl, rfl, rfl, ?_, ?_, ?_, ?_⟩
    · simp [ReplyToDirectMessage, horig]
    · intro k
      exact inboxOf_attachReply e mid (DirectMessage.mk rid fromU orig.From content now []) k
    · intro k
      rw [inboxOf_attachReply]
      simp
    · intro k dm hmem hne
      rw [inboxOf_attachReply]
      refine List.mem_map.mpr ⟨dm, hmem, ?_⟩
      simp [hne]
    · intro k dm hmem heq
      rw [inboxOf_attachReply]
      refine List.mem_map.mpr ⟨dm, hmem, ?_⟩
      simp [heq]

theorem mem_setInsert (l : List String) (x n : String) (h : n ∈ setInsert l x) :
    n ∈ l ∨ n = x := by
  by_cases hx : x ∈ l
  · simp [setInsert, hx] at h
    exact Or.inl h
  · simp [setInsert, hx] at h
    exact h

theorem JoinedNamesValid_of (e e2 : RedditEngine)
    (hsub : ∀ s ∈ e.subreddits, ∃ s2 ∈ e2.subreddits, s2.Name = s.Name)
    (husers : ∀ u2 ∈ e2.users, ∀ n ∈ u2.Subreddits,
      (∃ u ∈ e.users, n ∈ u.Subreddits) ∨ (∃ s2 ∈ e2.subreddits, s2.Name = n))
    (h : JoinedNamesValid e) : JoinedNamesValid e2 := by
  intro u2 hu2 n hn
  rcases husers u2 hu2 n hn with ⟨u, hu, hnu⟩ | hex
  · obtain ⟨s, hs, hname⟩ := h u hu n hnu
    obtain ⟨s2, hs2, hname2⟩ := hsub s hs
    exact ⟨s2, hs2, hname2.trans hname⟩
  · exact hex

theorem collectFeed_isSome (e : RedditEngine) (names : List String)
    (h : ∀ n ∈ names, ∃ s ∈ e.subreddits, s.Name = n) :
    (collectFeed e names).isSome := by
  induction names with
  | nil => simp [collectFeed]
  | cons n rest ih =>
    obtain ⟨s, hs, hname⟩ := h n (List.mem_cons_self n rest)
    have hfind : (findSubreddit e n).isSome := by
      rw [findSubreddit, List.find?_isSome]
      exact ⟨s, hs, by simp [hname]⟩
    obtain ⟨sub, hsub⟩ := Option.isSome_iff_exists.mp hfind
    have hrest := ih (fun m hm => h m (List.mem_cons_of_mem _ hm))
    obtain ⟨fs, hfs⟩ := Option.isSome_iff_exists.mp hrest
    simp [collectFeed, hsub, hfs]

theorem updateSubreddit_names (ss : List Subreddit) (k : String) (f : Subreddit → Subreddit)
    (hf : ∀ s, (f s).Name = s.Name) :
    ∀ s ∈ ss, ∃ s2 ∈ updateSubreddit ss k f, s2.Name = s.Name := by
  intro s hs
  by_cases hk : s.Name = k
  · exact ⟨f s, by
      simp only [updateSubreddit]
      exact List.mem_map.mpr ⟨s, hs, by simp [hk]⟩, hf s⟩
  · exact ⟨s, by
      simp only [updateSubreddit]
      exact List.mem_map.mpr ⟨s, hs, by simp [hk]⟩, rfl⟩

/-- Claim C9: every engine operation preserves the invariant that each
subreddit name in any user's joined set names a subreddit present in the
store (joins check existence and subreddits are never removed), so the
unchecked subreddit lookup inside `GetUserFeed` never dereferences a
missing entry for a registered user. -/
theorem joinedNames_invariant :
    (∀ e e2, JoinedNamesValid e → Step e e2 → JoinedNamesValid e2) ∧
    (∀ e un user, JoinedNamesValid e → findUser e un = some user →
      (collectFeed e user.Subreddits).isSome) := by
  constructor
  · intro e e2 hInv hStep
    cases hStep with
    | register username password now e4 h =>
      by_cases hx : (findUser e username).isSome
      · simp [RegisterUser, hx] at h
      · simp [RegisterUser, hx] at h
        refine JoinedNamesValid_of e e2 ?_ ?_ hInv
        · rw [← h]
          exact fun s hs => ⟨s, hs, rfl⟩
        · rw [← h]
          intro u2 hu2 n hn
          simp at hu2
          rcases hu2 with hu2 | hu2
          · exact Or.inl ⟨u2, hu2, hn⟩
          · subst hu2
            simp at hn
    | createSub name description creator now e4 h =>
      by_cases hx : (findSubreddit e name).isSome
      · simp [CreateSubreddit, hx] at h
      · simp [CreateSubreddit, hx] at h
        refine JoinedNamesValid_of e e2 ?_ ?_ hInv
        · rw [← h]
          exact fun s hs => ⟨s, by simp [hs], rfl⟩
        · rw [← h]
          intro u2 hu2 n hn
          exact Or.inl ⟨u2, hu2, hn⟩
    | join username subredditName e4 h =>
      cases huc : findUser e username with
      | none => simp [JoinSubreddit, huc] at h
      | some user0 =>
        cases hsc : findSubreddit e subredditName with
        | none => simp [JoinSubreddit, huc, hsc] at h
        | some sub0 =>
          simp [JoinSubreddit, huc, hsc] at h
          have hsub0 : sub0 ∈ e.subreddits ∧ sub0.Name = subredditName := by
            have h1 := List.mem_of_find?_eq_some hsc
            have h2 := List.find?_some hsc
            simp at h2
            exact ⟨h1, h2⟩
          refine JoinedNamesValid_of e e2 ?_ ?_ hInv
          · rw [← h]
            exact updateSubreddit_names e.subreddits subredditName _ (fun s => rfl)
          · rw [← h]
            intro u2 hu2 n hn
            simp only [updateUser] at hu2
            obtain ⟨u, hu, hueq⟩ := List.mem_map.mp hu2
            by_cases hk : u.Username = username
            · rw [if_pos hk] at hueq
              subst hueq
              simp at hn
              rcases mem_setInsert _ _ _ hn with hn2 | hn2
              · exact Or.inl ⟨u, hu, hn2⟩
              · obtain ⟨s2, hs2, hname2⟩ :=
                  updateSubreddit_names e.subreddits subredditName
                    (fun s => { s with Members := setInsert s.Members username }) (fun s => rfl)
                    sub0 hsub0.1
                exact Or.inr ⟨s2, hs2, hname2.trans (hsub0.2.trans hn2.symm)⟩
            · rw [if_neg hk] at hueq
              subst hueq
              exact Or.inl ⟨u, hu, hn⟩
    | leave username subredditName e4 h =>
      cases huc : findUser e username with
      | none => simp [LeaveSubreddit, huc] at h
      | some user0 =>
        cases hsc : findSubreddit e subredditName with
        | none => simp [LeaveSubreddit, huc, hsc] at h
        | some sub0 =>
          simp [LeaveSubreddit, huc, hsc] at h
          refine JoinedNamesValid_of e e2 ?_ ?_ hInv
          · rw [← h]
            exact updateSubreddit_names e.subreddits subredditName _ (fun s => rfl)
          · rw [← h]
            intro u2 hu2 n hn
            simp only [updateUser] at hu2
            obtain ⟨u, hu, hueq⟩ := List.mem_map.mp hu2
            by_cases hk : u.Username = username
            · rw [if_pos hk] at hueq
              subst hueq
              simp [setDelete] at hn
              exact Or.inl ⟨u, hu, hn.1⟩
            · rw [if_neg hk] at hueq
              subst hueq
              exact Or.inl ⟨u, hu, hn⟩
    | createPost title content author subredditName id now post e4 h =>
      cases hsc : findSubreddit e subredditName with
      | none => simp [CreatePost, hsc] at h
      | some sub0 =>
        simp [CreatePost, hsc] at h
        refine JoinedNamesValid_of e e2 ?_ ?_ hInv
        · rw [← h.2]
          exact updateSubreddit_names e.subreddits subredditName _ (fun s => rfl)
        · rw [← h.2]
          intro u2 hu2 n hn
          exact Or.inl ⟨u2, hu2, hn⟩
    | addComment content author postID parentCommentID id now comment e4 h =>
      cases hpc : findPost e postID with
      | none => simp [AddComment, hpc] at h
      | some post =>
        by_cases hemp : parentCommentID = ""
        · simp [AddComment, hpc, hemp] at h
          refine JoinedNamesValid_of e e2 ?_ ?_ hInv
          · rw [← h.2]
            exact fun s hs => ⟨s, hs, rfl⟩
          · rw [← h.2]
            intro u2 hu2 n hn
            exact Or.inl ⟨u2, hu2, hn⟩
        · cases hic : insertUnder post.Comments parentCommentID
              (Comment.mk id content author parentCommentID now 0 []) with
          | none => simp [AddComment, hpc, hemp, hic] at h
          | some cs2 =>
            simp [AddComment, hpc, hemp, hic] at h
            refine JoinedNamesValid_of e e2 ?_ ?_ hInv
            · rw [← h.2]
              exact fun s hs => ⟨s, hs, rfl⟩
            · rw [← h.2]
              intro u2 hu2 n hn
              exact Or.inl ⟨u2, hu2, hn⟩
    | vote postID upvote e4 h =>
      cases hpc : findPost e postID with
      | none => simp [VotePost, hpc] at h
      | some post =>
        have hgen : ∀ ps v, updateKarma { e with posts := ps } post.Author v = e2 →
            JoinedNamesValid e2 := by
          intro ps v hup
          refine JoinedNamesValid_of e e2 ?_ ?_ hInv
          · rw [← hup]
            unfold updateKarma
            cases findUser { e with posts := ps } post.Author <;>
              exact fun s hs => ⟨s, hs, rfl⟩
          · rw [← hup]
            unfold updateKarma
            cases findUser { e with posts := ps } post.Author with
            | none =>
              intro u2 hu2 n hn
              exact Or.inl ⟨u2, hu2, hn⟩
            | some u0 =>
              intro u2 hu2 n hn
              simp only [updateUser] at hu2
              obtain ⟨u, hu, hueq⟩ := List.mem_map.mp hu2
              by_cases hk : u.Username = post.Author
              · rw [if_pos hk] at hueq
                subst hueq
                exact Or.inl ⟨u, hu, hn⟩
              · rw [if_neg hk] at hueq
                subst hueq
                exact Or.inl ⟨u, hu, hn⟩
        cases upvote with
        | true =>
          simp [VotePost, hpc] at h
          exact hgen _ 1 h
        | false =>
          simp [VotePost, hpc] at h
          exact hgen _ (-1) h
    | sendDM fromUser toUser content id now dm e4 h =>
      by_cases hf : (findUser e fromUser).isNone
      · simp [SendDirectMessage, hf] at h
      · by_cases ht : (findUser e toUser).isNone
        · simp [SendDirectMessage, hf, ht] at h
        · simp [SendDirectMessage, hf, ht] at h
          refine JoinedNamesValid_of e e2 ?_ ?_ hInv
          · rw [← h.2]
            exact fun s hs => ⟨s, hs, rfl⟩
          · rw [← h.2]
            intro u2 hu2 n hn
            exact Or.inl ⟨u2, hu2, hn⟩
    | replyDM originalMsgID fromUser content id now dm e4 h =>
      cases hdc : findDM e.directMessages originalMsgID with
      | none => simp [ReplyToDirectMessage, hdc] at h
      | some orig =>
        simp [ReplyToDirectMessage, hdc] at h
        refine JoinedNamesValid_of e e2 ?_ ?_ hInv
        · rw [← h.2]
          exact fun s hs => ⟨s, hs, rfl⟩
        · rw [← h.2]
          intro u2 hu2 n hn
          exact Or.inl ⟨u2, hu2, hn⟩
  · intro e un user hInv hu
    have humem : user ∈ e.users := List.mem_of_find?_eq_some hu
    exact collectFeed_isSome e user.Subreddits (fun n hn => hInv user humem n hn)


theorem countComments_eq_nodes (cs : List Comment) :
    countComments cs = (commentNodes cs).length := by
  induction cs using countComments.induct with
  | case1 => simp [countComments, commentNodes]
  | case2 i cn a p t v cs2 rest ih1 ih2 =>
    simp [countComments, commentNodes, ih1, ih2]
    omega

theorem voteSplit_up (ps : List Post) :
    (voteSplit ps).1 = (ps.map (fun p => max p.Votes 0)).sum := by
  induction ps with
  | nil => simp [voteSplit]
  | cons p rest ih =>
    by_cases h : p.Votes > 0
    · simp [voteSplit, h, ih]
      omega
    · simp [voteSplit, h, ih]
      omega

theorem voteSplit_down (ps : List Post) :
    (voteSplit ps).2 = (ps.map (fun p => max (-p.Votes) 0)).sum := by
  induction ps with
  | nil => simp [voteSplit]
  | cons p rest ih =>
    by_cases h : p.Votes > 0
    · simp [voteSplit, h, ih]
      omega
    · simp [voteSplit, h, ih]
      omega

/-- Claim C7: the stats computation counts every comment-tree node of every
post (all descendants, recursively), splits vote totals by the sign of each
post's net counter (a positive counter contributes whole to the upvote
total, a negative one contributes its negation to the downvote total — net,
not gross), ranks all users by karma descending with the actor caller
truncating to top 10 and the HTTP caller to top 5, and sums direct-message
counts over all top-level inboxes. -/
theorem getStats_contract (e : RedditEngine) :
    statsTotalComments e = (e.posts.map (fun p => (commentNodes p.Comments).length)).sum ∧
    (voteSplit e.posts).1 = (e.posts.map (fun p => max p.Votes 0)).sum ∧
    (voteSplit e.posts).2 = (e.posts.map (fun p => max (-p.Votes) 0)).sum ∧
    (rankByKarma e).Perm (userKarmas e) ∧
    (rankByKarma e).Sorted (fun a b => b.2 ≤ a.2) ∧
    actorTopUsers e = (rankByKarma e).take 10 ∧
    (actorTopUsers e).length = min e.users.length 10 ∧
    (httpTopUsers e).length = min e.users.length 5 ∧
    statsTotalDMs e = (allInboxMessages e).length := by
  have hlen : (rankByKarma e).length = e.users.length := by
    simp [rankByKarma, List.length_insertionSort, userKarmas]
  have htake : actorTopUsers e = (rankByKarma e).take 10 := by
    by_cases h : (rankByKarma e).length > 10
    · simp [actorTopUsers, h]
    · have hle : (rankByKarma e).length ≤ 10 := by omega
      simp [actorTopUsers, h, List.take_of_length_le hle]
  refine ⟨?_, voteSplit_up e.posts, voteSplit_down e.posts, ?_, ?_, htake, ?_, ?_, ?_⟩
  · simp only [statsTotalComments]
    rw [List.map_congr_left (fun p _ => countComments_eq_nodes p.Comments)]
  · exact List.perm_insertionSort _ _
  · exact List.sorted_insertionSort _ _
  · rw [htake, List.length_take, hlen]
    omega
  · rw [httpTopUsers, List.length_take, hlen]
    omega
  · simp only [statsTotalDMs, allInboxMessages, List.length_flatMap]
    rfl

theorem bubblePass_perm (l : List Post) : (bubblePass l).Perm l := by
  induction l using bubblePass.induct with
  | case1 => simp [bubblePass]
  | case2 p => simp [bubblePass]
  | case3 p q rest h ih =>
    simp only [bubblePass, if_pos h]
    exact (ih.cons q).trans (List.Perm.swap p q rest)
  | case4 p q rest h ih =>
    simp only [bubblePass, if_neg h]
    exact ih.cons p

theorem bubblePass_last_min (l : List Post) (hne : l ≠ []) :
    ∃ l2 m, bubblePass l = l2 ++ [m] ∧ ∀ x ∈ l, m.CreatedAt ≤ x.CreatedAt := by
  induction l using bubblePass.induct with
  | case1 => exact absurd rfl hne
  | case2 p =>
    exact ⟨[], p, by simp [bubblePass], by simp⟩
  | case3 p q rest h ih =>
    obtain ⟨l2, m, heq, hmin⟩ := ih (by simp)
    refine ⟨q :: l2, m, ?_, ?_⟩
    · simp only [bubblePass, if_pos h, heq]
      rfl
    · intro x hx
      simp only [List.mem_cons] at hx
      rcases hx with hx | hx | hx
      · rw [hx]
        exact hmin p (by simp)
      · have hp := hmin p (by simp)
        rw [hx]
        omega
      · exact hmin x (by simp [hx])
  | case4 p q rest h ih =>
    obtain ⟨l2, m, heq, hmin⟩ := ih (by simp)
    refine ⟨p :: l2, m, ?_, ?_⟩
    · simp only [bubblePass, if_neg h, heq]
      rfl
    · intro x hx
      simp only [List.mem_cons] at hx
      rcases hx with hx | hx | hx
      · have hq := hmin q (by simp)
        rw [hx]
        omega
      · rw [hx]
        exact hmin q (by simp)
      · exact hmin x (by simp [hx])

theorem bubblePass_append_min (l : List Post) (m : Post)
    (hmin : ∀ x ∈ l, m.CreatedAt ≤ x.CreatedAt) :
    bubblePass (l ++ [m]) = bubblePass l ++ [m] := by
  induction l using bubblePass.induct with
  | case1 => simp [bubblePass]
  | case2 p =>
    have hp := hmin p (by simp)
    have hnot : ¬p.CreatedAt < m.CreatedAt := by omega
    simp [bubblePass, hnot]
  | case3 p q rest h ih =>
    have hrec := ih (fun x hx => hmin x (by
      rcases List.mem_cons.mp hx with hx | hx
      · simp [hx]
      · simp [hx]))
    simp only [List.cons_append, bubblePass, if_pos h]
    rw [← List.cons_append, hrec]
  | case4 p q rest h ih =>
    have hrec := ih (fun x hx => hmin x (by
      rcases List.mem_cons.mp hx with hx | hx
      · simp [hx]
      · simp [hx]))
    simp only [List.cons_append, bubblePass, if_neg h]
    rw [← List.cons_append, hrec]

theorem bubblePasses_perm (n : Nat) (l : List Post) : (bubblePasses n l).Perm l := by
  induction n generalizing l with
  | zero => simp [bubblePasses]
  | succ n ih =>
    simp only [bubblePasses]
    exact (ih (bubblePass l)).trans (bubblePass_perm l)

theorem bubblePasses_append_min (n : Nat) (l : List Post) (m : Post)
    (hmin : ∀ x ∈ l, m.CreatedAt ≤ x.CreatedAt) :
    bubblePasses n (l ++ [m]) = bubblePasses n l ++ [m] := by
  induction n generalizing l with
  | zero => simp [bubblePasses]
  | succ n ih =>
    simp only [bubblePasses]
    rw [bubblePass_append_min l m hmin]
    exact ih (bubblePass l) (fun x hx => hmin x ((bubblePass_perm l).mem_iff.mp hx))

theorem bubblePasses_sorted (n : Nat) :
    ∀ l : List Post, l.length ≤ n + 1 →
    (bubblePasses n l).Sorted (fun a b => b.CreatedAt ≤ a.CreatedAt) := by
  induction n with
  | zero =>
    intro l hl
    match l, hl with
    | [], _ => simp [bubblePasses]
    | [p], _ => simp [bubblePasses]
  | succ n ih =>
    intro l hl
    cases hc : l with
    | nil =>
      subst hc
      have : bubblePasses (n + 1) ([] : List Post) = [] :=
        List.perm_nil.mp (bubblePasses_perm (n + 1) [])
      simp [this]
    | cons hd tl =>
      subst hc
      obtain ⟨l2, m, heq, hmin⟩ := bubblePass_last_min (hd :: tl) (by simp)
      have hlen2 : l2.length ≤ n + 1 := by
        have h1 : (bubblePass (hd :: tl)).length = tl.length + 1 :=
          (bubblePass_perm (hd :: tl)).length_eq.trans (by simp)
        rw [heq] at h1
        simp at h1 hl
        omega
      have hminl2 : ∀ x ∈ l2, m.CreatedAt ≤ x.CreatedAt := by
        intro x hx
        have hx2 : x ∈ bubblePass (hd :: tl) := by
          rw [heq]
          simp [hx]
        exact hmin x ((bubblePass_perm (hd :: tl)).mem_iff.mp hx2)
      simp only [bubblePasses, heq]
      rw [bubblePasses_append_min n l2 m hminl2]
      have hsorted := ih l2 hlen2
      rw [List.Sorted, List.pairwise_append]
      refine ⟨hsorted, by simp, ?_⟩
      intro a ha b hb
      simp at hb
      subst hb
      have ha2 : a ∈ l2 := ((bubblePasses_perm n l2).mem_iff).mp ha
      exact hminl2 a ha2

theorem bubblePass_filter_time (l : List Post) (t : Nat) :
    (bubblePass l).filter (fun p => p.CreatedAt = t) = l.filter (fun p => p.CreatedAt = t) := by
  induction l using bubblePass.induct with
  | case1 => simp [bubblePass]
  | case2 p => simp [bubblePass]
  | case3 p q rest h ih =>
    simp only [bubblePass, if_pos h]
    by_cases hp : p.CreatedAt = t
    · have hq : ¬q.CreatedAt = t := by omega
      simp only [List.filter_cons]
      simp [hp, hq, ih]
    · by_cases hq : q.CreatedAt = t
      · simp only [List.filter_cons]
        simp [hp, hq, ih]
      · simp only [List.filter_cons]
        simp [hp, hq, ih]
  | case4 p q rest h ih =>
    simp only [bubblePass, if_neg h]
    by_cases hp : p.CreatedAt = t <;> simp [hp, List.filter_cons, ih]

theorem sortPosts_perm (l : List Post) : (sortPosts l).Perm l :=
  bubblePasses_perm (l.length - 1) l

theorem sortPosts_sorted (l : List Post) :
    (sortPosts l).Sorted (fun a b => b.CreatedAt ≤ a.CreatedAt) := by
  apply bubblePasses_sorted
  omega

theorem sortPosts_filter_time (l : List Post) (t : Nat) :
    (sortPosts l).filter (fun p => p.CreatedAt = t) = l.filter (fun p => p.CreatedAt = t) := by
  unfold sortPosts
  generalize l.length - 1 = n
  induction n generalizing l with
  | zero => simp [bubblePasses]
  | succ n ih =>
    simp only [bubblePasses]
    rw [ih (bubblePass l), bubblePass_filter_time]

theorem mem_resolvePosts (e : RedditEngine) (ids : List String) (p : Post)
    (h : p ∈ resolvePosts e ids) : p.ID ∈ ids ∧ findPost e p.ID = some p := by
  obtain ⟨pid, hpid, hfind⟩ := List.mem_filterMap.mp h
  have hid : p.ID = pid := by
    have := List.find?_some hfind
    simpa using this
  rw [hid]
  exact ⟨hpid, hfind⟩

theorem resolvePosts_nodup (e : RedditEngine) (ids : List String) (h : ids.Nodup) :
    (resolvePosts e ids).Nodup := by
  refine List.Nodup.filterMap ?_ h
  intro a b c hac hbc
  have ha : c.ID = a := by simpa using List.find?_some hac
  have hb : c.ID = b := by simpa using List.find?_some hbc
  rw [← ha, hb]

theorem collectFeed_mem (e : RedditEngine) (names : List String) :
    ∀ raw, collectFeed e names = some raw → ∀ p ∈ raw,
    ∃ m ∈ names, ∃ sub2, findSubreddit e m = some sub2 ∧ p ∈ resolvePosts e sub2.Posts := by
  induction names with
  | nil =>
    intro raw hraw p hp
    simp [collectFeed] at hraw
    subst hraw
    cases hp
  | cons n rest ih =>
    intro raw hraw p hp
    cases hsc : findSubreddit e n with
    | none => simp [collectFeed, hsc] at hraw
    | some sub =>
      cases hrc : collectFeed e rest with
      | none => simp [collectFeed, hsc, hrc] at hraw
      | some fs =>
        simp [collectFeed, hsc, hrc] at hraw
        subst hraw
        rcases List.mem_append.mp hp with hp | hp
        · exact ⟨n, by simp, sub, hsc, hp⟩
        · obtain ⟨m, hm, sub2, hsub2, hp2⟩ := ih fs hrc p hp
          exact ⟨m, by simp [hm], sub2, hsub2, hp2⟩

theorem collectFeed_nodup (e : RedditEngine) (names : List String)
    (hWf : StoreWf e) (hnd : names.Nodup) :
    ∀ raw, collectFeed e names = some raw → raw.Nodup := by
  induction names with
  | nil =>
    intro raw hraw
    simp [collectFeed] at hraw
    subst hraw
    exact List.nodup_nil
  | cons n rest ih =>
    intro raw hraw
    cases hsc : findSubreddit e n with
    | none => simp [collectFeed, hsc] at hraw
    | some sub =>
      cases hrc : collectFeed e rest with
      | none => simp [collectFeed, hsc, hrc] at hraw
      | some fs =>
        simp [collectFeed, hsc, hrc] at hraw
        subst hraw
        have hsubmem : sub ∈ e.subreddits := List.mem_of_find?_eq_some hsc
        have hsubname : sub.Name = n := by simpa using List.find?_some hsc
        have hndrest : rest.Nodup := (List.nodup_cons.mp hnd).2
        have hnmem : n ∉ rest := (List.nodup_cons.mp hnd).1
        rw [List.nodup_append]
        refine ⟨resolvePosts_nodup e sub.Posts (hWf.2.1 sub hsubmem), ih hndrest fs hrc, ?_⟩
        intro p hp hq
        obtain ⟨hpid, _⟩ := mem_resolvePosts e sub.Posts p hp
        obtain ⟨m, hm, sub2, hsub2, hp2⟩ := collectFeed_mem e rest fs hrc p hq
        obtain ⟨hpid2, _⟩ := mem_resolvePosts e sub2.Posts p hp2
        have hsub2mem : sub2 ∈ e.subreddits := List.mem_of_find?_eq_some hsub2
        have hsub2name : sub2.Name = m := by simpa using List.find?_some hsub2
        have hneq : sub.Name ≠ sub2.Name := by
          rw [hsubname, hsub2name]
          exact fun hc => hnmem (hc ▸ hm)
        exact hWf.2.2 sub hsubmem sub2 hsub2mem hneq p.ID hpid hpid2

/-- Claim C3: `GetUserFeed` fails with the user-not-found error for an
unknown username; otherwise it returns the concatenation of the joined
subreddits' post sequences sorted by creation time descending: the result
is a permutation of the concatenation, is sorted most-recent-first, is
stable (posts with equal timestamps keep their concatenation order, ties
not otherwise broken), and has no duplicates when the joined names are
distinct and the store is well formed. -/
theorem getUserFeed_contract (e : RedditEngine) (un : String) :
    (findUser e un = none → GetUserFeed e un = .error "user not found") ∧
    (∀ user raw, findUser e un = some user → collectFeed e user.Subreddits = some raw →
      GetUserFeed e un = .ok (some (sortPosts raw)) ∧
      (sortPosts raw).Perm raw ∧
      (sortPosts raw).Sorted (fun a b => b.CreatedAt ≤ a.CreatedAt) ∧
      (∀ t, (sortPosts raw).filter (fun p => p.CreatedAt = t) =
        raw.filter (fun p => p.CreatedAt = t)) ∧
      (user.Subreddits.Nodup → StoreWf e → (sortPosts raw).Nodup)) := by
  refine ⟨?_, ?_⟩
  · intro h
    simp [GetUserFeed, h]
  · intro user raw hu hraw
    refine ⟨by simp [GetUserFeed, hu, hraw], sortPosts_perm raw, sortPosts_sorted raw,
      fun t => sortPosts_filter_time raw t, ?_⟩
    intro hnd hWf
    exact (sortPosts_perm raw).symm.nodup (collectFeed_nodup e user.Subreddits hWf hnd raw hraw)

theorem votePost_sequence_witness :
    findPost wEng "post1" = some wPost1 ∧ wPost1.Votes = 0 ∧
    ∃ e2, applyVotes wEng "post1" [true, true, false] = .ok e2 ∧
      (∃ post2, findPost e2 "post1" = some post2 ∧ post2.Votes = 3) ∧
      (∃ user2, findUser e2 "alice" = some user2 ∧ user2.Karma = 1) := by
  refine ⟨rfl, rfl, ?_⟩
  obtain ⟨e2, ha, ⟨p2, hp2, hauth, hv⟩, hk⟩ :=
    votePost_sequence_counter_karma wEng "post1" wPost1 [true, true, false] rfl rfl
  obtain ⟨u2, hu2, hkarma⟩ := hk wAlice rfl
  refine ⟨e2, ha, ⟨p2, hp2, by rw [hv]; decide⟩, ⟨u2, ?_, by rw [hkarma]; decide⟩⟩
  have : wPost1.Author = "alice" := rfl
  rw [← this]
  exact hu2

theorem addComment_witness :
    findPost wEngC "post2" = some wPostC ∧
    findComment wPostC.Comments "c3" = some wCom3 ∧
    ∃ cs2 e2,
      insertUnder wPostC.Comments "c3" (Comment.mk "c9" "w" "dave" "c3" 9 0 []) = some cs2 ∧
      AddComment wEngC "w" "dave" "post2" "c3" "c9" 9 =
        .ok (Comment.mk "c9" "w" "dave" "c3" 9 0 [], e2) ∧
      findPost e2 "post2" = some { wPostC with Comments := cs2 } ∧
      findComment cs2 "c3" = some (wCom3.addChild (Comment.mk "c9" "w" "dave" "c3" 9 0 [])) ∧
      countComments cs2 = countComments wPostC.Comments + 1 := by
  have hparent : findComment wPostC.Comments "c3" = some wCom3 := by
    simp [wPostC, wCom1, wCom2, wCom3, findComment]
  exact ⟨rfl, hparent,
    ((addComment_contract wEngC "w" "dave" "post2" "c3" "c9" 9).2 wPostC rfl).2.2
      (by decide) wCom3 hparent⟩

theorem getUserFeed_witness :
    findUser wEng "alice" = some wAlice ∧
    collectFeed wEng wAlice.Subreddits = some [wPost1] ∧
    GetUserFeed wEng "alice" = .ok (some (sortPosts [wPost1])) ∧
    (sortPosts [wPost1]).Perm [wPost1] ∧
    (sortPosts [wPost1]).Sorted (fun a b => b.CreatedAt ≤ a.CreatedAt) ∧
    (sortPosts [wPost1]).Nodup := by
  obtain ⟨hfeed, hperm, hsort, hfil, hnd⟩ :=
    (getUserFeed_contract wEng "alice").2 wAlice [wPost1] rfl rfl
  exact ⟨rfl, rfl, hfeed, hperm, hsort, hnd (by decide) (by unfold StoreWf; decide)⟩

theorem replyDM_witness :
    findDM wEngD.directMessages "dm1" = some wDM ∧
    ∃ e2, ReplyToDirectMessage wEngD "dm1" "bob" "hello" "dm2" 11 =
        .ok (DirectMessage.mk "dm2" "bob" "alice" "hello" 11 [], e2) ∧
      (DirectMessage.mk "dm2" "bob" "alice" "hello" 11 []).To = wDM.From ∧
      (inboxOf e2 "bob").length = (inboxOf wEngD "bob").length ∧
      (inboxOf e2 "alice").length = (inboxOf wEngD "alice").length := by
  obtain ⟨e2, hok, hto, _, _, _, _, hlen, _, _⟩ :=
    (replyToDirectMessage_contract wEngD "dm1" "bob" "hello" "dm2" 11).2 wDM rfl
  exact ⟨rfl, e2, hok, hto, hlen "bob", hlen "alice"⟩

theorem registerUser_witness :
    findUser NewRedditEngine "alice" = none ∧
    ∃ e2, RegisterUser NewRedditEngine "alice" "pw" 0 = .ok e2 ∧
      e2.users = NewRedditEngine.users ++ [⟨"alice", "pw", 0, 0, []⟩] ∧
      findUser e2 "alice" = some ⟨"alice", "pw", 0, 0, []⟩ ∧
      RegisterUser e2 "alice" "zz" 9 = .error "user already exists" := by
  obtain ⟨e2, hok, husers, hfind, hfail⟩ :=
    registerUser_first_ok_second_fails NewRedditEngine "alice" "pw" 0 rfl
  exact ⟨rfl, e2, hok, husers, hfind, hfail "zz" 9⟩

theorem leaveSubreddit_witness :
    findUser wEng "alice" = some wAlice ∧ findSubreddit wEng "science" = some wSci ∧
    ∃ e2, LeaveSubreddit wEng "alice" "science" = .ok e2 ∧
      findUser e2 "alice" = some { wAlice with Subreddits := setDelete wAlice.Subreddits "science" } ∧
      findSubreddit e2 "science" = some { wSci with Members := setDelete wSci.Members "alice" } := by
  obtain ⟨e2, hok, hu, hs, _⟩ := (leaveSubreddit_contract wEng "alice" "science").2.1 wAlice wSci rfl rfl
  exact ⟨rfl, rfl, e2, hok, hu, hs⟩

theorem votePost_unregistered_witness :
    findPost wEngX "post9" = some wPostX ∧ findUser wEngX wPostX.Author = none ∧
    ∃ e2, VotePost wEngX "post9" true = .ok e2 ∧
      e2.users = wEngX.users ∧ e2.subreddits = wEngX.subreddits ∧
      e2.directMessages = wEngX.directMessages ∧
      findPost e2 "post9" = some { wPostX with Votes := wPostX.Votes + if true then 2 else -1 } :=
  ⟨rfl, rfl, votePost_unregistered_author wEngX "post9" true wPostX rfl rfl⟩

theorem joinedNames_witness :
    JoinedNamesValid wEng ∧ JoinedNamesValid wEng2 ∧
    (collectFeed wEng wAlice.Subreddits).isSome = true := by
  have hval : JoinedNamesValid wEng := by unfold JoinedNamesValid; decide
  refine ⟨hval, ?_, ?_⟩
  · exact joinedNames_invariant.1 wEng wEng2 hval
      (Step.register wEng "carol" "p" 3 wEng2 rfl)
  · exact joinedNames_invariant.2 wEng "alice" wAlice hval rfl

theorem getDirectMessages_witness :
    findUser wEng "bob" = some wBob ∧
    GetDirectMessages wEng "bob" = .ok (inboxOf wEng "bob") ∧
    GetDirectMessages wEng "bob" = .ok [] := by
  obtain ⟨h1, h2⟩ := (getDirectMessages_contract wEng "bob").2 wBob rfl
  exact ⟨rfl, h1, h2 rfl⟩
